import Mathlib

/-!
A verification development for the go-otp-auth OTP lifecycle and
rate-limiting engine.

The Go source is shallowly embedded: strings are lists of characters
(`List Char`), the shared Redis-backed stores are explicit state records,
wall-clock time is an explicit `Nat` parameter passed to each store
operation (the Go code reads `time.Now()` once per store operation, so an
operation that touches the clock twice receives two time parameters), and
fallible operations return `Except`.  Absolute times are measured in
minutes, matching the configuration units (`ExpiryMinutes`,
`RateLimitWindow` in minutes).

Byte lengths vs rune counts: Go's `len` on a string counts bytes.  All
strings accepted by the validators below are ASCII (the phone regex and
the digit check only accept ASCII characters), and on ASCII strings byte
length and character count coincide, so modelling `len` as `List.length`
over characters is extensionally faithful: whenever the two measures
differ the string is rejected by both the byte-level and the char-level
model.
-/

namespace GoOtpAuth

/-! ### Character classes (Go `unicode.IsSpace`, digit runes) -/

/-- Go's `unicode.IsSpace`: the Unicode White_Space code points.
Used by `strings.TrimSpace`. -/
def goIsSpace (c : Char) : Bool :=
  let n := c.toNat
  n == 32 || n == 9 || n == 10 || n == 11 || n == 12 || n == 13 ||
  n == 0x85 || n == 0xa0 || n == 0x1680 ||
  (0x2000 ≤ n && n ≤ 0x200a) ||
  n == 0x2028 || n == 0x2029 || n == 0x202f || n == 0x205f || n == 0x3000

/-- ASCII digit test, as the Go source writes it: `'0' <= c && c <= '9'`
(char codes 48–57). -/
def isDigitCh (c : Char) : Bool :=
  48 ≤ c.toNat && c.toNat ≤ 57

/-! ### Go `strings.TrimSpace` -/

/-- Go `strings.TrimSpace`: remove leading and trailing Unicode
whitespace. -/
def goTrimSpace (s : List Char) : List Char :=
  (((s.dropWhile goIsSpace).reverse.dropWhile goIsSpace)).reverse

/-! ### Substring search (Go `strings.Contains`) -/

/-- `pat` occurs at the head of `s`. -/
def headMatch : List Char → List Char → Bool
  | [], _ => true
  | _ :: _, [] => false
  | p :: ps, c :: cs => p == c && headMatch ps cs

/-- Go `strings.Contains s pat`: `pat` occurs contiguously in `s`. -/
def hasSubstr (pat : List Char) : List Char → Bool
  | [] => headMatch pat []
  | c :: rest => headMatch pat (c :: rest) || hasSubstr pat rest

/-! ### Phone and code validators (src/pkg/utils/otp.go, src/unnamed/part_008) -/

/-- The regular expression `^\+[1-9]\d{6,14}$` from
`ValidatePhoneNumber`: a `+`, a nonzero digit, then 6–14 more digits. -/
def matchPhoneRegex (s : List Char) : Bool :=
  match s with
  | c :: d :: rest =>
    (c == '+') && (49 ≤ d.toNat && d.toNat ≤ 57) && rest.all isDigitCh &&
    decide (6 ≤ rest.length) && decide (rest.length ≤ 14)
  | _ => false

/-- `utils.ValidatePhoneNumber` (src/pkg/utils/otp.go): length in
`[8, 16]`, no `".."` or `"--"` substring, and the regex above. -/
def ValidatePhoneNumber (s : List Char) : Bool :=
  if s.length < 8 || s.length > 16 then false
  else if hasSubstr ['.', '.'] s || hasSubstr ['-', '-'] s then false
  else matchPhoneRegex s

/-- `utils.NormalizePhoneNumber` (src/pkg/utils/otp.go):
`strings.TrimSpace`. -/
def NormalizePhoneNumber (s : List Char) : List Char :=
  goTrimSpace s

/-- Application error sentinels (src/pkg/errors/errors.go). -/
inductive AppError where
  | invalidOTP
  | otpExpired
  | tooManyAttempts
  | rateLimitExceeded
  | invalidPhoneNumber
  deriving DecidableEq, Repr

/-- `utils.ValidateAndNormalizePhone` (src/unnamed/part_008): normalize
(trim), trim again, reject length outside `[8, 20]`, then
`ValidatePhoneNumber`. -/
def ValidateAndNormalizePhone (s : List Char) : Except AppError (List Char) :=
  let s1 := goTrimSpace (NormalizePhoneNumber s)
  if s1.length > 20 || s1.length < 8 then .error .invalidPhoneNumber
  else if !(ValidatePhoneNumber s1) then .error .invalidPhoneNumber
  else .ok s1

/-- `utils.ValidateOTPCode` (src/unnamed/part_008): trim, require the
configured length, require every character to be an ASCII digit; returns
the trimmed code. -/
def ValidateOTPCode (otpCode : List Char) (expectedLength : Nat) :
    Except AppError (List Char) :=
  let c := goTrimSpace otpCode
  if c.length ≠ expectedLength then .error .invalidOTP
  else if !(c.all isDigitCh) then .error .invalidOTP
  else .ok c

/-! ### Constant-time comparison (crypto/subtle.ConstantTimeCompare)

`subtle.ConstantTimeCompare(x, y)` returns 0 at once if the lengths
differ; otherwise it runs one pass over *all* byte positions,
accumulating `v |= x[i] ^ y[i]`, and returns 1 iff `v == 0`.  The
embedding instruments the loop with a step count (one step per byte
position processed) so that the timing behaviour is a provable function
of the definition rather than a stipulation. -/

/-- The accumulation loop of `ConstantTimeCompare`: OR together a list of
byte XORs, counting one step per element processed. -/
def ctLoop : List Nat → Nat × Nat
  | [] => (0, 0)
  | d :: rest =>
    let (v, steps) := ctLoop rest
    (d ||| v, steps + 1)

/-- `subtle.ConstantTimeCompare` with its step count: `(result, steps)`.
Result is 1 iff the sequences are equal; with unequal lengths the loop is
never entered. -/
def ctCompareTrace (x y : List Char) : Nat × Nat :=
  if x.length = y.length then
    let (v, steps) := ctLoop (List.zipWith (fun a b => a.toNat ^^^ b.toNat) x y)
    (if v = 0 then 1 else 0, steps)
  else (0, 0)

/-- The result of `subtle.ConstantTimeCompare` as used by `VerifyOTP`. -/
def ctCompare (x y : List Char) : Nat :=
  (ctCompareTrace x y).1

/-- The number of byte positions processed by
`subtle.ConstantTimeCompare`. -/
def ctCompareCost (x y : List Char) : Nat :=
  (ctCompareTrace x y).2

/-! ### Data model (src/unnamed/part_004) -/

/-- `model.OTP`: one outstanding challenge. -/
structure OTP where
  phoneNumber : List Char
  code : List Char
  expiresAt : Nat
  attempts : Nat
  deriving DecidableEq, Repr

/-- A rate-limit counter with its Redis key expiry. -/
structure RateEntry where
  count : Nat
  expiresAt : Nat
  deriving DecidableEq, Repr

/-- The Redis-backed OTP store: challenges and rate counters, both keyed
by phone number (keys `otp:<phone>` and `rate_limit:<phone>` live in
disjoint namespaces, modelled as two separate maps). -/
structure Store where
  otps : List Char → Option OTP
  rate : List Char → Option RateEntry

/-! ### OTP repository (src/internal/repository/otp_repository.go) -/

/-- `otpRepository.StoreOTP`: unconditionally overwrite the challenge for
`phone` with attempts 0 and expiry `expiryMinutes` from now. -/
def storeOTP (st : Store) (now : Nat) (phone code : List Char)
    (expiryMinutes : Nat) : Store :=
  { st with otps := fun k =>
      if k = phone then
        some ({ phoneNumber := phone, code := code,
                expiresAt := now + expiryMinutes, attempts := 0 } : OTP)
      else st.otps k }

/-- `otpRepository.DeleteOTP`: idempotent removal. -/
def deleteOTP (st : Store) (phone : List Char) : Store :=
  { st with otps := fun k => if k = phone then none else st.otps k }

/-- `otpRepository.GetOTP`: returns `none` if the key is absent; if the
record's stored expiry has already passed (`time.Now().After(ExpiresAt)`,
strict), deletes it and returns `none` (lazy expiry check). -/
def getOTP (st : Store) (now : Nat) (phone : List Char) :
    Option OTP × Store :=
  match st.otps phone with
  | none => (none, st)
  | some otp =>
    if now > otp.expiresAt then (none, deleteOTP st phone)
    else (some otp, st)

/-- The repository-internal failure of `IncrementAttempts`
(`fmt.Errorf("OTP not found")`). -/
inductive RepoError where
  | challengeNotFound
  deriving DecidableEq, Repr

/-- `otpRepository.IncrementAttempts`: re-fetch via `GetOTP` (performing
its lazy expiry deletion), fail if no live challenge exists, otherwise
rewrite the record with `attempts+1` preserving the remaining TTL (the
absolute expiry is unchanged). -/
def incrementAttempts (st : Store) (now : Nat) (phone : List Char) :
    Option RepoError × Store :=
  match getOTP st now phone with
  | (none, st1) => (some .challengeNotFound, st1)
  | (some otp, st1) =>
    (none,
     { st1 with otps := fun k =>
         if k = phone then some ({ otp with attempts := otp.attempts + 1 })
         else st1.otps k })

/-- `otpRepository.GetRateLimitCount`: 0 if the counter is absent or its
window has elapsed (Redis evicts the key once the TTL is over). -/
def getRateLimitCount (st : Store) (now : Nat) (phone : List Char) : Nat :=
  match st.rate phone with
  | none => 0
  | some e => if now ≥ e.expiresAt then 0 else e.count

/-- `otpRepository.IncrementRateLimit`: atomically `INCR` the counter
(an absent or evicted key counts as 0) and re-arm its expiry to the full
window from now. -/
def incrementRateLimit (st : Store) (now : Nat) (phone : List Char)
    (windowMinutes : Nat) : Store :=
  let old := getRateLimitCount st now phone
  { st with rate := fun k =>
      if k = phone then some ({ count := old + 1, expiresAt := now + windowMinutes } : RateEntry)
      else st.rate k }

/-! ### Identity store and token issuer -/

/-- `model.User` (src/unnamed/part_004), reduced to the fields the core
reads: gorm assigns `ID` (auto-increment primary key) on insert, and
`phone_number` carries a unique index. -/
structure User where
  id : Nat
  phoneNumber : List Char
  deriving DecidableEq, Repr

/-- The users table of the gorm-backed `userRepository` (packed as the
second document of src/internal/handler/auth_handler_test.go): the
stored rows plus gorm's auto-increment counter for primary keys. -/
structure UserStore where
  rows : List User
  nextId : Nat

/-- `userRepository.GetByPhoneNumber` (packed in
src/internal/handler/auth_handler_test.go):
`db.Where("phone_number = ?", phoneNumber).First(&user)` — the first
stored row whose `phone_number` column equals the argument, or none when
the query reports `gorm.ErrRecordNotFound`, which the service treats as
"no user". -/
def getByPhoneNumber (us : UserStore) (phone : List Char) : Option User :=
  us.rows.find? (fun u => u.phoneNumber == phone)

/-- `userRepository.Create` (packed in
src/internal/handler/auth_handler_test.go): `db.Create(user)` — insert
the row, gorm assigning the next auto-increment id.  The service calls
it with `&model.User{PhoneNumber: phoneNumber}`. -/
def createUser (us : UserStore) (phone : List Char) : User × UserStore :=
  let u : User := { id := us.nextId, phoneNumber := phone }
  (u, { rows := us.rows ++ [u], nextId := us.nextId + 1 })

/-- Modelled from the spec: the token issuer boundary
(`jwt.JWTManager.GenerateToken` delegates the actual HS256 signing to an
external library), producing an opaque signed token string of the JWT
`header.payload.signature` shape — always non-empty. -/
def generateToken (userId : Nat) (phone : List Char) : List Char :=
  'e' :: 'y' :: '.' :: (Nat.toDigits 10 userId ++ '.' :: phone)

/-- `model.AuthResponse`: the successful verification result. -/
structure AuthResponse where
  token : List Char
  user : User
  deriving DecidableEq, Repr

/-! ### OTP configuration (src/internal/config/config.go) -/

/-- `config.OTPConfig`.  The rate-limit threshold used by `SendOTP` is
`MaxAttempts` (the code reuses the same knob for both the verification
attempt cap and `maxRequestsPerWindow`; both default to 3). -/
structure OTPConfig where
  length : Nat
  expiryMinutes : Nat
  maxAttempts : Nat
  rateLimitWindowMinutes : Nat
  deriving DecidableEq, Repr

/-- The defaults of `config.Load`: length 6, expiry 2 minutes, max
attempts 3, rate window 10 minutes. -/
def defaultOTPConfig : OTPConfig :=
  { length := 6, expiryMinutes := 2, maxAttempts := 3,
    rateLimitWindowMinutes := 10 }

/-! ### The auth service (src/internal/config/config.go lines 158–256,
`package service`) -/

/-- The full service state: the Redis OTP store and the identity store. -/
structure ServiceState where
  store : Store
  users : UserStore

/-- `authService.SendOTP`.  `genCode` is the value the cryptographic
generator `utils.GenerateOTP` returns on this call (the random draw is a
parameter of the deterministic embedding).  The third component is the
list of `(phone, code)` pairs emitted to the out-of-band notification
channel (`utils.LogOTP`). -/
def sendOTP (cfg : OTPConfig) (st : Store) (now : Nat)
    (rawPhone genCode : List Char) :
    Except AppError Unit × Store × List (List Char × List Char) :=
  match ValidateAndNormalizePhone rawPhone with
  | .error e => (.error e, st, [])
  | .ok phone =>
    let count := getRateLimitCount st now phone
    if count ≥ cfg.maxAttempts then (.error .rateLimitExceeded, st, [])
    else
      let st1 := storeOTP st now phone genCode cfg.expiryMinutes
      let st2 := incrementRateLimit st1 now phone cfg.rateLimitWindowMinutes
      (.ok (), st2, [(phone, genCode)])

/-- `authService.VerifyOTP` (the `subtle.ConstantTimeCompare` version,
src/internal/config/config.go lines 191–256).  `tGet` is the wall-clock
time at the `GetOTP` fetch, `tInc` the time at the `IncrementAttempts`
call (they differ only when the clock advances between the two store
operations).  A failure of `IncrementAttempts` is logged and swallowed,
exactly as in the source. -/
def verifyOTP (cfg : OTPConfig) (s : ServiceState) (tGet tInc : Nat)
    (rawPhone rawCode : List Char) :
    Except AppError AuthResponse × ServiceState :=
  match ValidateAndNormalizePhone rawPhone with
  | .error e => (.error e, s)
  | .ok phone =>
    match ValidateOTPCode rawCode cfg.length with
    | .error e => (.error e, s)
    | .ok otpCode =>
      match getOTP s.store tGet phone with
      | (none, st1) => (.error .otpExpired, { s with store := st1 })
      | (some stored, st1) =>
        if stored.attempts ≥ cfg.maxAttempts then
          (.error .tooManyAttempts, { s with store := deleteOTP st1 phone })
        else if ctCompare stored.code otpCode ≠ 1 then
          let (_, st2) := incrementAttempts st1 tInc phone
          (.error .invalidOTP, { s with store := st2 })
        else
          let st2 := deleteOTP st1 phone
          let (user, us1) :=
            match getByPhoneNumber s.users phone with
            | some u => (u, s.users)
            | none => createUser s.users phone
          let token := generateToken user.id user.phoneNumber
          (.ok { token := token, user := user },
           { store := st2, users := us1 })

/-! ### The spec's phone-acceptance rule (for the refinement claim)

This definition follows the specification's words, to be compared with
`ValidateAndNormalizePhone`, which is translated from the source. -/

/-- The acceptance rule as the spec states it: trim whitespace; length of
the trimmed string in `[8, 20]`; no literal `".."` or `"--"`; the form
`+`, a nonzero digit, then 6–14 more digits. -/
def phoneSpecAccepts (raw : List Char) : Bool :=
  let t := goTrimSpace raw
  decide (8 ≤ t.length) && decide (t.length ≤ 20) &&
  !(hasSubstr ['.', '.'] t) && !(hasSubstr ['-', '-'] t) &&
  matchPhoneRegex t

/-! ### Supporting lemmas and the claims -/

theorem dropWhile_append_all {p : Char → Bool} {l₁ l₂ : List Char}
    (h : ∀ c ∈ l₁, p c = true) :
    (l₁ ++ l₂).dropWhile p = l₂.dropWhile p := by
  induction l₁ with
  | nil => rfl
  | cons c t ih =>
    have hc : p c = true := h c (by simp)
    simp only [List.cons_append, List.dropWhile_cons_of_pos hc]
    exact ih (fun x hx => h x (by simp [hx]))

theorem dropWhile_eq_nil_all {p : Char → Bool} {l : List Char}
    (h : ∀ c ∈ l, p c = true) : l.dropWhile p = [] := by
  have h2 := @dropWhile_append_all p l [] h
  simpa using h2

theorem dropWhile_head_false {p : Char → Bool} :
    ∀ {l : List Char} {c : Char} {t : List Char},
      l.dropWhile p = c :: t → p c = false := by
  intro l
  induction l with
  | nil => intro c t h; simp [List.dropWhile] at h
  | cons a l ih =>
    intro c t h
    by_cases ha : p a = true
    · rw [List.dropWhile_cons_of_pos ha] at h; exact ih h
    · rw [List.dropWhile_cons_of_neg ha] at h
      cases h
      simpa using ha

theorem dropWhile_eq_self_of_head {p : Char → Bool} {l : List Char}
    (h : ∀ c t, l = c :: t → p c = false) : l.dropWhile p = l := by
  cases l with
  | nil => rfl
  | cons c t => exact List.dropWhile_cons_of_neg (by simp [h c t rfl])

theorem exists_dropWhile_append (p : Char → Bool) (l : List Char) :
    ∃ l₁, (∀ c ∈ l₁, p c = true) ∧ l = l₁ ++ l.dropWhile p := by
  induction l with
  | nil => exact ⟨[], by simp, rfl⟩
  | cons c t ih =>
    by_cases hc : p c = true
    · obtain ⟨l₁, h₁, h₂⟩ := ih
      refine ⟨c :: l₁, ?_, ?_⟩
      · intro x hx
        rcases List.mem_cons.mp hx with rfl | hx
        · exact hc
        · exact h₁ x hx
      · rw [List.dropWhile_cons_of_pos hc, List.cons_append, ← h₂]
    · exact ⟨[], by simp, by rw [List.dropWhile_cons_of_neg hc, List.nil_append]⟩

theorem goTrimSpace_head_false {l : List Char} {c : Char} {t : List Char}
    (h : goTrimSpace l = c :: t) : goIsSpace c = false := by
  unfold goTrimSpace at h
  obtain ⟨l₁, hall, hdec⟩ :=
    exists_dropWhile_append goIsSpace (l.dropWhile goIsSpace).reverse
  have hB : (l.dropWhile goIsSpace).reverse.dropWhile goIsSpace
      = t.reverse ++ [c] := by
    have := congrArg List.reverse h
    simpa using this
  have hA : l.dropWhile goIsSpace = c :: (t ++ l₁.reverse) := by
    have := congrArg List.reverse hdec
    simp only [List.reverse_reverse, List.reverse_append] at this
    rw [hB] at this
    simpa using this
  exact dropWhile_head_false hA

theorem goTrimSpace_last_false {l : List Char} {c : Char} {t : List Char}
    (h : goTrimSpace l = t ++ [c]) : goIsSpace c = false := by
  unfold goTrimSpace at h
  have hB : (l.dropWhile goIsSpace).reverse.dropWhile goIsSpace
      = c :: t.reverse := by
    have := congrArg List.reverse h
    simpa using this
  exact dropWhile_head_false hB

theorem goTrimSpace_eq_self {l : List Char}
    (h1 : ∀ c t, l = c :: t → goIsSpace c = false)
    (h2 : ∀ c t, l = t ++ [c] → goIsSpace c = false) :
    goTrimSpace l = l := by
  unfold goTrimSpace
  rw [dropWhile_eq_self_of_head h1]
  have h3 : ∀ c t, l.reverse = c :: t → goIsSpace c = false := by
    intro c t hct
    apply h2 c t.reverse
    have := congrArg List.reverse hct
    simpa using this
  rw [dropWhile_eq_self_of_head h3, List.reverse_reverse]

theorem goTrimSpace_idem (l : List Char) :
    goTrimSpace (goTrimSpace l) = goTrimSpace l := by
  apply goTrimSpace_eq_self
  · intro c t h; exact goTrimSpace_head_false h
  · intro c t h; exact goTrimSpace_last_false h

theorem goTrimSpace_pad {ws1 ws2 m : List Char}
    (h1 : ∀ c ∈ ws1, goIsSpace c = true) (h2 : ∀ c ∈ ws2, goIsSpace c = true)
    (hm1 : ∀ c t, m = c :: t → goIsSpace c = false)
    (hm2 : ∀ c t, m = t ++ [c] → goIsSpace c = false) :
    goTrimSpace (ws1 ++ m ++ ws2) = m := by
  unfold goTrimSpace
  rw [List.append_assoc, dropWhile_append_all h1]
  cases m with
  | nil =>
    simp only [List.nil_append]
    rw [dropWhile_eq_nil_all h2]
    rfl
  | cons c t =>
    have hc : goIsSpace c = false := hm1 c t rfl
    have hinner : List.dropWhile goIsSpace (c :: (t ++ ws2)) = c :: (t ++ ws2) :=
      List.dropWhile_cons_of_neg (by simp [hc])
    rw [List.cons_append, hinner, List.reverse_cons, List.reverse_append, List.append_assoc,
      dropWhile_append_all (by intro x hx; exact h2 x (List.mem_reverse.mp hx))]
    have key : List.dropWhile goIsSpace (t.reverse ++ [c]) = t.reverse ++ [c] := by
      apply dropWhile_eq_self_of_head
      intro d u hdu
      have hrev : c :: t = u.reverse ++ [d] := by
        have := congrArg List.reverse hdu
        simpa using this
      exact hm2 d u.reverse hrev
    rw [key]
    simp

theorem digit_not_space {c : Char} (h : isDigitCh c = true) :
    goIsSpace c = false := by
  simp only [isDigitCh, Bool.and_eq_true, decide_eq_true_eq] at h
  simp only [goIsSpace, Bool.or_eq_false_iff, Bool.and_eq_false_iff,
    beq_eq_false_iff_ne, ne_eq, decide_eq_false_iff_not, not_le]
  omega

theorem digits_head_not_space {m : List Char} (h : m.all isDigitCh = true) :
    ∀ c t, m = c :: t → goIsSpace c = false := by
  intro c t hct
  subst hct
  exact digit_not_space (by simpa using (List.all_eq_true.mp h c (by simp)))

theorem digits_last_not_space {m : List Char} (h : m.all isDigitCh = true) :
    ∀ c t, m = t ++ [c] → goIsSpace c = false := by
  intro c t hct
  subst hct
  exact digit_not_space (by simpa using (List.all_eq_true.mp h c (by simp)))

/-- Trimming a string of digits is the identity. -/
theorem goTrimSpace_digits {m : List Char} (h : m.all isDigitCh = true) :
    goTrimSpace m = m :=
  goTrimSpace_eq_self (digits_head_not_space h) (digits_last_not_space h)

/-- A well-formed code (digits of the expected length) validates to
itself. -/
theorem validateOTPCode_ok {m : List Char} {n : Nat}
    (hd : m.all isDigitCh = true) (hl : m.length = n) :
    ValidateOTPCode m n = .ok m := by
  unfold ValidateOTPCode
  rw [goTrimSpace_digits hd]
  simp [hl, hd]

/-- Whitespace padding around a code is invisible to validation. -/
theorem validateOTPCode_pad {ws1 ws2 m : List Char} {n : Nat}
    (h1 : ∀ c ∈ ws1, goIsSpace c = true) (h2 : ∀ c ∈ ws2, goIsSpace c = true)
    (hd : m.all isDigitCh = true) :
    ValidateOTPCode (ws1 ++ m ++ ws2) n = ValidateOTPCode m n := by
  unfold ValidateOTPCode
  rw [goTrimSpace_pad h1 h2 (digits_head_not_space hd) (digits_last_not_space hd),
    goTrimSpace_digits hd]

theorem or_eq_zero_parts {a b : Nat} (h : a ||| b = 0) : a = 0 ∧ b = 0 := by
  constructor <;> apply Nat.eq_of_testBit_eq <;> intro i <;>
  · have hi := congrArg (fun n => Nat.testBit n i) h
    simp only [Nat.testBit_or, Nat.zero_testBit, Bool.or_eq_false_iff] at hi
    simp [hi.1, hi.2]

theorem ctLoop_steps (ds : List Nat) : (ctLoop ds).2 = ds.length := by
  induction ds with
  | nil => rfl
  | cons d rest ih => simp [ctLoop, ih]

theorem ctLoop_fst_zero {ds : List Nat} :
    (ctLoop ds).1 = 0 ↔ ∀ d ∈ ds, d = 0 := by
  induction ds with
  | nil => simp [ctLoop]
  | cons d rest ih =>
    simp only [ctLoop, List.mem_cons]
    constructor
    · intro h
      obtain ⟨hd, hrest⟩ := or_eq_zero_parts h
      intro x hx
      rcases hx with rfl | hx
      · exact hd
      · exact ih.mp hrest x hx
    · intro h
      have hd : d = 0 := h d (Or.inl rfl)
      have hrest : (ctLoop rest).1 = 0 := ih.mpr (fun x hx => h x (Or.inr hx))
      simp [hd, hrest]

theorem zip_xor_zero : ∀ {x y : List Char}, x.length = y.length →
    ((∀ d ∈ List.zipWith (fun a b => a.toNat ^^^ b.toNat) x y, d = 0) ↔ x = y)
  | [], [], _ => by simp
  | [], c :: t, h => by simp at h
  | c :: t, [], h => by simp at h
  | a :: x, b :: y, h => by
    simp only [List.zipWith_cons_cons, List.mem_cons, List.cons.injEq]
    have hlen : x.length = y.length := by simpa using h
    constructor
    · intro hz
      have hab : a.toNat ^^^ b.toNat = 0 := hz _ (Or.inl rfl)
      have hab2 : a = b := Char.eq_of_val_eq (UInt32.toNat.inj (Nat.xor_eq_zero.mp hab))
      have hxy : x = y := (zip_xor_zero hlen).mp (fun d hd => hz d (Or.inr hd))
      exact ⟨hab2, hxy⟩
    · rintro ⟨rfl, rfl⟩
      intro d hd
      rcases hd with rfl | hd
      · simp
      · exact (zip_xor_zero hlen).mpr rfl d hd

/-- `ConstantTimeCompare` returns 1 exactly on equal inputs. -/
theorem ctCompare_eq_one_iff {x y : List Char} :
    ctCompare x y = 1 ↔ x = y := by
  unfold ctCompare ctCompareTrace
  by_cases h : x.length = y.length
  · simp only [h, if_true]
    by_cases hz : (ctLoop (List.zipWith (fun a b => a.toNat ^^^ b.toNat) x y)).1 = 0
    · simp only [hz, if_true]
      simp only [ctLoop_fst_zero] at hz
      simp [(zip_xor_zero h).mp hz]
    · simp only [hz, if_false]
      constructor
      · intro h01; exact absurd h01 (by simp)
      · intro hxy
        exact absurd (ctLoop_fst_zero.mpr ((zip_xor_zero h).mpr hxy)) hz
  · simp only [h, if_false]
    constructor
    · intro h1; exact absurd h1 (by simp)
    · intro hxy; exact absurd (congrArg List.length hxy) h

instance {e a : Type} [DecidableEq e] [DecidableEq a] :
    DecidableEq (Except e a) := fun x y =>
  match x, y with
  | .ok u, .ok v =>
    if h : u = v then .isTrue (by rw [h]) else .isFalse (by simp [h])
  | .ok _, .error _ => .isFalse (by simp)
  | .error _, .ok _ => .isFalse (by simp)
  | .error u, .error v =>
    if h : u = v then .isTrue (by rw [h]) else .isFalse (by simp [h])

theorem hasSubstr_head_mem {c : Char} {cs : List Char} :
    ∀ {l : List Char}, hasSubstr (c :: cs) l = true → c ∈ l := by
  intro l
  induction l with
  | nil => intro h; simp [hasSubstr, headMatch] at h
  | cons x xs ih =>
    intro h
    simp only [hasSubstr, Bool.or_eq_true] at h
    rcases h with h | h
    · have : (c == x) = true := by
        cases hm : (c == x) with
        | true => rfl
        | false => rw [headMatch] at h; simp [hm] at h
      simp only [beq_iff_eq] at this
      subst this
      exact List.mem_cons_self c xs
    · exact List.mem_cons_of_mem x (ih h)

/-- Strings in the regex language have length `rest + 2 ∈ [8, 16]`. -/
theorem matchPhoneRegex_length {s : List Char} (h : matchPhoneRegex s = true) :
    8 ≤ s.length ∧ s.length ≤ 16 := by
  cases s with
  | nil => simp [matchPhoneRegex] at h
  | cons c t =>
    cases t with
    | nil => simp [matchPhoneRegex] at h
    | cons d rest =>
      simp only [matchPhoneRegex, Bool.and_eq_true, decide_eq_true_eq] at h
      simp only [List.length_cons]
      omega

/-- Strings in the regex language consist of `+` followed by digits, so
they contain neither `'.'` nor `'-'`, hence no `".."` or `"--"`. -/
theorem matchPhoneRegex_no_pattern (c : Char) {s : List Char}
    (h : matchPhoneRegex s = true) (hc : c.toNat < 43 ∨ (c.toNat > 43 ∧ c.toNat < 48) ∨ c.toNat > 57) :
    hasSubstr [c, c] s = false := by
  cases s with
  | nil => simp [hasSubstr, headMatch]
  | cons c0 t =>
    cases t with
    | nil => simp [matchPhoneRegex] at h
    | cons d rest =>
      simp only [matchPhoneRegex, Bool.and_eq_true, decide_eq_true_eq,
        beq_iff_eq] at h
      obtain ⟨⟨⟨⟨hplus, hd1, hd2⟩, hdig⟩, _⟩, _⟩ := h
      subst hplus
      by_contra hmem
      have hmem2 : hasSubstr [c, c] ('+' :: d :: rest) = true := by
        cases hx : hasSubstr [c, c] ('+' :: d :: rest) with
        | true => rfl
        | false => exact absurd hx hmem
      have hcm : c ∈ '+' :: d :: rest := hasSubstr_head_mem hmem2
      rcases List.mem_cons.mp hcm with rfl | hcm
      · simp at hc
      rcases List.mem_cons.mp hcm with rfl | hcm
      · omega
      · have := List.all_eq_true.mp hdig c hcm
        simp only [isDigitCh, Bool.and_eq_true, decide_eq_true_eq] at this
        omega

/-- `ValidatePhoneNumber` accepts exactly the regex language: the length
and anti-pattern checks are implied by the regex. -/
theorem validatePhoneNumber_iff {s : List Char} :
    ValidatePhoneNumber s = true ↔ matchPhoneRegex s = true := by
  unfold ValidatePhoneNumber
  constructor
  · intro h
    by_cases h1 : s.length < 8 || s.length > 16
    · simp [h1] at h
    · simp only [h1, if_false] at h
      by_cases h2 : hasSubstr ['.', '.'] s || hasSubstr ['-', '-'] s
      · simp [h2] at h
      · simpa [h2] using h
  · intro h
    obtain ⟨hl1, hl2⟩ := matchPhoneRegex_length h
    have hdot : hasSubstr ['.', '.'] s = false :=
      matchPhoneRegex_no_pattern '.' h (by right; left; constructor <;> decide)
    have hdash : hasSubstr ['-', '-'] s = false :=
      matchPhoneRegex_no_pattern '-' h (by right; left; constructor <;> decide)
    have hlen : (decide (s.length < 8) || decide (s.length > 16)) = false := by
      simp; omega
    simp only [hlen, hdot, hdash]
    simpa using h

/-- `ValidateAndNormalizePhone` succeeds exactly on inputs whose trimmed
form is in the regex language, and then returns that trimmed form. -/
theorem validateAndNormalizePhone_ok_iff {raw : List Char} :
    (∃ p, ValidateAndNormalizePhone raw = .ok p) ↔
      matchPhoneRegex (goTrimSpace raw) = true := by
  unfold ValidateAndNormalizePhone NormalizePhoneNumber
  rw [goTrimSpace_idem]
  constructor
  · intro ⟨p, hp⟩
    by_cases h1 : (goTrimSpace raw).length > 20 || (goTrimSpace raw).length < 8
    · simp only [h1, if_true] at hp; exact absurd hp (by simp)
    · simp only [h1, if_false] at hp
      by_cases h2 : ValidatePhoneNumber (goTrimSpace raw) = true
      · exact validatePhoneNumber_iff.mp h2
      · rw [Bool.not_eq_true] at h2
        simp [h2] at hp
  · intro h
    obtain ⟨hl1, hl2⟩ := matchPhoneRegex_length h
    have hv : ValidatePhoneNumber (goTrimSpace raw) = true :=
      validatePhoneNumber_iff.mpr h
    have hlen : (decide ((goTrimSpace raw).length > 20) ||
        decide ((goTrimSpace raw).length < 8)) = false := by
      simp; omega
    exact ⟨goTrimSpace raw, by simp only [hlen, hv, if_false]; simp⟩

theorem validateAndNormalizePhone_cases (raw : List Char) :
    ValidateAndNormalizePhone raw = .ok (goTrimSpace raw) ∨
    ValidateAndNormalizePhone raw = .error .invalidPhoneNumber := by
  unfold ValidateAndNormalizePhone NormalizePhoneNumber
  rw [goTrimSpace_idem]
  by_cases h1 : ((goTrimSpace raw).length > 20 || (goTrimSpace raw).length < 8) = true
  · right; simp only [h1, if_true]
  · by_cases h2 : ValidatePhoneNumber (goTrimSpace raw) = true
    · left; simp only [h1, if_false, h2, Bool.not_true, if_false]
      simp
    · right
      rw [Bool.not_eq_true] at h2
      simp only [h1, if_false, h2, Bool.not_false, if_true]
      split <;> rfl

theorem validateAndNormalizePhone_error {raw : List Char}
    (h : matchPhoneRegex (goTrimSpace raw) = false) :
    ValidateAndNormalizePhone raw = .error .invalidPhoneNumber := by
  rcases validateAndNormalizePhone_cases raw with hok | herr
  · exfalso
    have h2 := validateAndNormalizePhone_ok_iff.mp ⟨_, hok⟩
    simp [h] at h2
  · exact herr

theorem matchPhoneRegex_false_of_defect {t : List Char}
    (hbad : t.head? ≠ some '+' ∨
      t.length < 8 ∨ 16 < t.length ∨
      (∃ rest, t = '+' :: '0' :: rest) ∨
      hasSubstr ['.', '.'] t = true ∨ hasSubstr ['-', '-'] t = true) :
    matchPhoneRegex t = false := by
  rcases hbad with h | h | h | ⟨rest, rfl⟩ | h | h
  · cases t with
    | nil => rfl
    | cons c u =>
      cases u with
      | nil => rfl
      | cons d r =>
        have hne : (c == '+') = false := by
          simp only [List.head?] at h
          simp only [beq_eq_false_iff_ne, ne_eq]
          intro hc; exact h (by rw [hc])
        simp [matchPhoneRegex, hne]
  · cases hx : matchPhoneRegex t with
    | false => rfl
    | true => obtain ⟨h1, _⟩ := matchPhoneRegex_length hx; omega
  · cases hx : matchPhoneRegex t with
    | false => rfl
    | true => obtain ⟨_, h2⟩ := matchPhoneRegex_length hx; omega
  · simp [matchPhoneRegex]
  · cases hx : matchPhoneRegex t with
    | false => rfl
    | true =>
      have := matchPhoneRegex_no_pattern '.' hx
        (by right; left; constructor <;> decide)
      rw [h] at this; exact this
  · cases hx : matchPhoneRegex t with
    | false => rfl
    | true =>
      have := matchPhoneRegex_no_pattern '-' hx
        (by right; left; constructor <;> decide)
      rw [h] at this; exact this

theorem phoneSpecAccepts_iff {raw : List Char} :
    phoneSpecAccepts raw = true ↔ matchPhoneRegex (goTrimSpace raw) = true := by
  unfold phoneSpecAccepts
  constructor
  · intro h
    simp only [Bool.and_eq_true] at h
    exact h.2
  · intro h
    obtain ⟨h1, h2⟩ := matchPhoneRegex_length h
    have hdot := matchPhoneRegex_no_pattern '.' h
      (by right; left; constructor <;> decide)
    have hdash := matchPhoneRegex_no_pattern '-' h
      (by right; left; constructor <;> decide)
    simp only [Bool.and_eq_true, decide_eq_true_eq]
    refine ⟨⟨⟨⟨by omega, by omega⟩, by simp [hdot]⟩, by simp [hdash]⟩, h⟩

/-! ### Service-level step lemmas -/

theorem sendOTP_rate_limited {cfg : OTPConfig} {st : Store} {now : Nat}
    {rawPhone phone : List Char}
    (hval : ValidateAndNormalizePhone rawPhone = .ok phone)
    (hcount : getRateLimitCount st now phone ≥ cfg.maxAttempts)
    (genCode : List Char) :
    sendOTP cfg st now rawPhone genCode =
      (.error .rateLimitExceeded, st, []) := by
  unfold sendOTP
  rw [hval]
  simp only [ge_iff_le] at hcount
  simp [hcount]

theorem verify_invalid_code {cfg : OTPConfig} {s : ServiceState}
    {tGet tInc : Nat} {rawPhone phone rawCode : List Char}
    (hval : ValidateAndNormalizePhone rawPhone = .ok phone)
    (hbad : ValidateOTPCode rawCode cfg.length = .error .invalidOTP) :
    verifyOTP cfg s tGet tInc rawPhone rawCode = (.error .invalidOTP, s) := by
  unfold verifyOTP
  rw [hval, hbad]

theorem verify_no_challenge {cfg : OTPConfig} {s : ServiceState}
    {tGet tInc : Nat} {rawPhone phone rawCode code : List Char}
    (hval : ValidateAndNormalizePhone rawPhone = .ok phone)
    (hcode : ValidateOTPCode rawCode cfg.length = .ok code)
    (habs : s.store.otps phone = none) :
    verifyOTP cfg s tGet tInc rawPhone rawCode = (.error .otpExpired, s) := by
  unfold verifyOTP
  rw [hval, hcode]
  simp only [getOTP, habs]

theorem verify_lapsed_challenge {cfg : OTPConfig} {s : ServiceState}
    {tGet tInc : Nat} {rawPhone phone rawCode code : List Char} {otp : OTP}
    (hval : ValidateAndNormalizePhone rawPhone = .ok phone)
    (hcode : ValidateOTPCode rawCode cfg.length = .ok code)
    (hotp : s.store.otps phone = some otp)
    (hexp : tGet > otp.expiresAt) :
    verifyOTP cfg s tGet tInc rawPhone rawCode =
      (.error .otpExpired, { s with store := deleteOTP s.store phone }) := by
  unfold verifyOTP
  rw [hval, hcode]
  simp only [getOTP, hotp, hexp, if_true]

theorem verify_exhausted {cfg : OTPConfig} {s : ServiceState}
    {tGet tInc : Nat} {rawPhone phone rawCode code : List Char} {otp : OTP}
    (hval : ValidateAndNormalizePhone rawPhone = .ok phone)
    (hcode : ValidateOTPCode rawCode cfg.length = .ok code)
    (hotp : s.store.otps phone = some otp)
    (hlive : ¬ tGet > otp.expiresAt)
    (hatt : otp.attempts ≥ cfg.maxAttempts) :
    verifyOTP cfg s tGet tInc rawPhone rawCode =
      (.error .tooManyAttempts, { s with store := deleteOTP s.store phone }) := by
  unfold verifyOTP
  rw [hval, hcode]
  simp only [getOTP, hotp, hlive, if_false, ge_iff_le]
  simp only [ge_iff_le] at hatt
  simp [hatt]

/-- The store after a failed attempt bumped the counter on `phone`. -/
def bumpAttempts (st : Store) (phone : List Char) (otp : OTP) : Store :=
  { st with otps := fun k =>
      if k = phone then some ({ otp with attempts := otp.attempts + 1 })
      else st.otps k }

theorem verify_wrong_code {cfg : OTPConfig} {s : ServiceState}
    {tGet : Nat} {rawPhone phone rawCode code : List Char} {otp : OTP}
    (hval : ValidateAndNormalizePhone rawPhone = .ok phone)
    (hcode : ValidateOTPCode rawCode cfg.length = .ok code)
    (hotp : s.store.otps phone = some otp)
    (hlive : ¬ tGet > otp.expiresAt)
    (hatt : otp.attempts < cfg.maxAttempts)
    (hne : code ≠ otp.code) :
    verifyOTP cfg s tGet tGet rawPhone rawCode =
      (.error .invalidOTP, { s with store := bumpAttempts s.store phone otp }) := by
  unfold verifyOTP
  rw [hval, hcode]
  simp only [getOTP, hotp, hlive, if_false]
  have hattf : ¬ otp.attempts ≥ cfg.maxAttempts := by omega
  simp only [hattf, if_false]
  have hct : ctCompare otp.code code ≠ 1 := by
    intro hc
    exact hne (ctCompare_eq_one_iff.mp hc).symm
  simp only [hct, if_true, ite_true, ne_eq, not_false_iff]
  simp only [incrementAttempts, getOTP, hotp, hlive, if_false, bumpAttempts]

theorem generateToken_ne_nil (i : Nat) (p : List Char) :
    generateToken i p ≠ [] := by
  simp [generateToken]

/-- The `WHERE phone_number = ?` clause: a row returned by
`GetByPhoneNumber` carries the queried phone number. -/
theorem getByPhoneNumber_phone {us : UserStore} {phone : List Char}
    {u : User} (h : getByPhoneNumber us phone = some u) :
    u.phoneNumber = phone := by
  have h2 := List.find?_some h
  simpa using h2

theorem verify_correct_code {cfg : OTPConfig} {s : ServiceState}
    {tGet tInc : Nat} {phone : List Char} {otp : OTP}
    (hval : ValidateAndNormalizePhone phone = .ok phone)
    (hotp : s.store.otps phone = some otp)
    (hlive : ¬ tGet > otp.expiresAt)
    (hatt : otp.attempts < cfg.maxAttempts)
    (hdig : otp.code.all isDigitCh = true)
    (hlen : otp.code.length = cfg.length) :
    ∃ resp s2,
      verifyOTP cfg s tGet tInc phone otp.code = (.ok resp, s2) ∧
      resp.token ≠ [] ∧
      resp.user.phoneNumber = phone ∧
      s2.store.otps phone = none ∧
      s2.store.rate = s.store.rate := by
  have hcode : ValidateOTPCode otp.code cfg.length = .ok otp.code :=
    validateOTPCode_ok hdig hlen
  unfold verifyOTP
  rw [hval, hcode]
  simp only [getOTP, hotp, hlive, if_false]
  have hattf : ¬ otp.attempts ≥ cfg.maxAttempts := by omega
  simp only [hattf, if_false]
  have hct : ctCompare otp.code otp.code = 1 := ctCompare_eq_one_iff.mpr rfl
  simp only [hct, ne_eq, not_true_eq_false, if_false, ite_false]
  cases hu : getByPhoneNumber s.users phone with
  | some u =>
    simp only [hu]
    exact ⟨_, _, rfl, generateToken_ne_nil _ _, getByPhoneNumber_phone hu,
      by simp [deleteOTP], rfl⟩
  | none =>
    simp only [hu, createUser]
    exact ⟨_, _, rfl, generateToken_ne_nil _ _, rfl,
      by simp [deleteOTP], rfl⟩

/-! ### Concrete instances used by witnesses and counterexamples -/

/-- A demonstration phone number in normalized valid form. -/
def demoPhone : List Char := "+14155550100".toList

/-- An empty users table. -/
def emptyUsers : UserStore := { rows := [], nextId := 1 }

/-- A live challenge for `demoPhone`: code 123456, expires at minute 10,
no attempts yet. -/
def demoOtp : OTP :=
  { phoneNumber := demoPhone, code := "123456".toList,
    expiresAt := 10, attempts := 0 }

/-- A service state holding exactly the live challenge `demoOtp`. -/
def sDemo : ServiceState :=
  { store := { otps := fun k => if k = demoPhone then some demoOtp else none,
               rate := fun _ => none },
    users := emptyUsers }

/-- A state with no challenge at all. -/
def sEmpty : ServiceState :=
  { store := { otps := fun _ => none, rate := fun _ => none },
    users := emptyUsers }

/-- A store whose rate counter for `demoPhone` is exhausted (count 3
inside a window lasting until minute 100). -/
def stRateFull : Store :=
  { otps := fun _ => none,
    rate := fun k => if k = demoPhone then
        some ({ count := 3, expiresAt := 100 } : RateEntry) else none }

/-! ### The claims -/

/-- C7: the phone validator accepts a raw input iff, after trimming
surrounding whitespace, the string has length in `[8, 20]`, contains
neither `".."` nor `"--"`, and consists of `+`, a nonzero digit, and 6–14
more digits.  (`ValidateAndNormalizePhone` is a pure function of its
input, so determinism is inherent in the embedding.) -/
theorem C7_phone_validator_matches_spec (raw : List Char) :
    (∃ p, ValidateAndNormalizePhone raw = .ok p) ↔
      phoneSpecAccepts raw = true := by
  rw [validateAndNormalizePhone_ok_iff, phoneSpecAccepts_iff]

/-- C2: with the rate-window counter at or above the configured
threshold (the code uses `MaxAttempts`, default 3, as
`maxRequestsPerWindow`), `SendOTP` returns `RateLimitExceeded`, the
store is untouched (no challenge stored, no counter increment), nothing
is emitted to the notification channel, and the outcome is the same for
every value the code generator would have produced — the rejection
precedes generation. -/
theorem C2_rate_limit_rejects_without_side_effects
    (cfg : OTPConfig) (st : Store) (now : Nat) (rawPhone phone : List Char)
    (hval : ValidateAndNormalizePhone rawPhone = .ok phone)
    (hcount : getRateLimitCount st now phone ≥ cfg.maxAttempts) :
    ∀ genCode, sendOTP cfg st now rawPhone genCode =
      (.error .rateLimitExceeded, st, []) :=
  fun genCode => sendOTP_rate_limited hval hcount genCode

theorem C2_witness :
    ValidateAndNormalizePhone demoPhone = .ok demoPhone ∧
    getRateLimitCount stRateFull 5 demoPhone ≥ defaultOTPConfig.maxAttempts ∧
    sendOTP defaultOTPConfig stRateFull 5 demoPhone "123456".toList =
      (.error .rateLimitExceeded, stRateFull, []) :=
  ⟨by decide, by decide,
   C2_rate_limit_rejects_without_side_effects defaultOTPConfig stRateFull 5
     demoPhone demoPhone (by decide) (by decide) ("123456".toList)⟩

/-- C6: for an invalid phone number (missing `+`, length out of range,
leading zero after `+`, or containing `".."` or `"--"`), `SendOTP`
returns `InvalidPhoneNumber` with the store unchanged — no rate-limit
increment, no challenge creation, no emission, for every value the
generator would have produced. -/
theorem C6_invalid_phone_no_side_effects
    (cfg : OTPConfig) (st : Store) (now : Nat) (rawPhone : List Char)
    (hbad : (goTrimSpace rawPhone).head? ≠ some '+' ∨
      (goTrimSpace rawPhone).length < 8 ∨ 16 < (goTrimSpace rawPhone).length ∨
      (∃ rest, goTrimSpace rawPhone = '+' :: '0' :: rest) ∨
      hasSubstr ['.', '.'] (goTrimSpace rawPhone) = true ∨
      hasSubstr ['-', '-'] (goTrimSpace rawPhone) = true) :
    ∀ genCode, sendOTP cfg st now rawPhone genCode =
      (.error .invalidPhoneNumber, st, []) := by
  intro genCode
  have herr : ValidateAndNormalizePhone rawPhone = .error .invalidPhoneNumber :=
    validateAndNormalizePhone_error (matchPhoneRegex_false_of_defect hbad)
  unfold sendOTP
  rw [herr]

theorem C6_witness :
    ("14155550100".toList.head? ≠ some '+') ∧
    sendOTP defaultOTPConfig stRateFull 5 ("14155550100".toList)
        ("123456".toList) = (.error .invalidPhoneNumber, stRateFull, []) :=
  ⟨by decide,
   C6_invalid_phone_no_side_effects defaultOTPConfig stRateFull 5
     ("14155550100".toList) (Or.inl (by decide)) ("123456".toList)⟩

/-- C5 as stated is violated by whitespace padding: the literal claim
quantifies over every submitted code that is not solely digits or has
the wrong raw length, yet a correct code padded with spaces — which has
the wrong raw length and contains non-digits — is trimmed and then
*succeeds*.  Here the stored code is `123456` and the submission is
`" 123456 "`. -/
theorem C5_counterexample :
    (" 123456 ".toList.all isDigitCh = false ∧
     " 123456 ".toList.length ≠ defaultOTPConfig.length) ∧
    (verifyOTP defaultOTPConfig sDemo 5 5 demoPhone " 123456 ".toList).1 ≠
      .error .invalidOTP := by
  constructor
  · constructor <;> decide
  · decide

/-- C5 (amended): for every submitted code which *after trimming
surrounding whitespace* is not composed solely of digits or whose
trimmed length differs from the configured OTP length, `VerifyOTP`
returns `InvalidOTP` immediately, before any store lookup: the full
service state is returned unchanged, so no challenge is touched and no
attempt is consumed. -/
theorem C5_malformed_code_rejected_before_lookup
    (cfg : OTPConfig) (s : ServiceState) (tGet tInc : Nat)
    (rawPhone phone rawCode : List Char)
    (hval : ValidateAndNormalizePhone rawPhone = .ok phone)
    (hbad : (goTrimSpace rawCode).length ≠ cfg.length ∨
      (goTrimSpace rawCode).all isDigitCh = false) :
    verifyOTP cfg s tGet tInc rawPhone rawCode = (.error .invalidOTP, s) := by
  have hc : ValidateOTPCode rawCode cfg.length = .error .invalidOTP := by
    unfold ValidateOTPCode
    rcases hbad with h | h
    · simp [h]
    · by_cases hl : (goTrimSpace rawCode).length = cfg.length
      · simp [hl, h]
      · simp [hl]
  exact verify_invalid_code hval hc

theorem C5_witness :
    ((goTrimSpace "12345a".toList).all isDigitCh = false) ∧
    verifyOTP defaultOTPConfig sDemo 5 5 demoPhone "12345a".toList =
      (.error .invalidOTP, sDemo) :=
  ⟨by decide,
   C5_malformed_code_rejected_before_lookup defaultOTPConfig sDemo 5 5
     demoPhone demoPhone ("12345a".toList) (by decide) (Or.inr (by decide))⟩

/-- C4: when the challenge is absent, or its stored expiry has already
passed at the fetch, `VerifyOTP` with any well-formed code returns
`OTPExpired` — regardless of whether the code equals any stored code —
and the store's `GetOTP` itself returns `none` in both situations (lazy
expiry check). -/
theorem C4_absent_or_expired_returns_expired
    (cfg : OTPConfig) (s : ServiceState) (tGet tInc : Nat)
    (rawPhone phone rawCode code : List Char)
    (hval : ValidateAndNormalizePhone rawPhone = .ok phone)
    (hcode : ValidateOTPCode rawCode cfg.length = .ok code)
    (habs : s.store.otps phone = none ∨
      ∃ otp, s.store.otps phone = some otp ∧ tGet > otp.expiresAt) :
    (verifyOTP cfg s tGet tInc rawPhone rawCode).1 = .error .otpExpired ∧
    (getOTP s.store tGet phone).1 = none := by
  rcases habs with habs | ⟨otp, hotp, hexp⟩
  · constructor
    · rw [verify_no_challenge hval hcode habs]
    · simp [getOTP, habs]
  · constructor
    · rw [verify_lapsed_challenge hval hcode hotp hexp]
    · simp [getOTP, hotp, hexp]

theorem C4_witness :
    sEmpty.store.otps demoPhone = none ∧
    ValidateOTPCode "999999".toList defaultOTPConfig.length =
      .ok "999999".toList ∧
    ((verifyOTP defaultOTPConfig sEmpty 5 5 demoPhone "999999".toList).1 =
        .error .otpExpired ∧
      (getOTP sEmpty.store 5 demoPhone).1 = none) :=
  ⟨by decide, by decide,
   C4_absent_or_expired_returns_expired defaultOTPConfig sEmpty 5 5
     demoPhone demoPhone ("999999".toList) ("999999".toList)
     (by decide) (by decide) (Or.inl (by decide))⟩

/-- C1: for a valid phone with a live challenge (unexpired, attempts
below the maximum, well-formed stored code), submitting exactly the
stored code succeeds with a non-empty token and a user carrying the
verified phone number, deletes the challenge, and an immediately
repeated verification with the same phone and code returns `OTPExpired`
because no challenge exists any more. -/
theorem C1_verify_succeeds_exactly_once
    (cfg : OTPConfig) (s : ServiceState) (tGet : Nat)
    (phone : List Char) (otp : OTP)
    (hval : ValidateAndNormalizePhone phone = .ok phone)
    (hotp : s.store.otps phone = some otp)
    (hlive : ¬ tGet > otp.expiresAt)
    (hatt : otp.attempts < cfg.maxAttempts)
    (hdig : otp.code.all isDigitCh = true)
    (hlen : otp.code.length = cfg.length) :
    ∃ resp s2,
      verifyOTP cfg s tGet tGet phone otp.code = (.ok resp, s2) ∧
      resp.token ≠ [] ∧
      resp.user.phoneNumber = phone ∧
      s2.store.otps phone = none ∧
      (verifyOTP cfg s2 tGet tGet phone otp.code).1 = .error .otpExpired := by
  obtain ⟨resp, s2, heq, htok, hph, hdel, _⟩ :=
    verify_correct_code hval hotp hlive hatt hdig hlen
  refine ⟨resp, s2, heq, htok, hph, hdel, ?_⟩
  rw [verify_no_challenge hval (validateOTPCode_ok hdig hlen) hdel]

theorem C1_witness :
    ∃ resp s2,
      verifyOTP defaultOTPConfig sDemo 5 5 demoPhone demoOtp.code =
        (.ok resp, s2) ∧
      resp.token ≠ [] ∧
      resp.user.phoneNumber = demoPhone ∧
      s2.store.otps demoPhone = none ∧
      (verifyOTP defaultOTPConfig s2 5 5 demoPhone demoOtp.code).1 =
        .error .otpExpired :=
  C1_verify_succeeds_exactly_once defaultOTPConfig sDemo 5 demoPhone demoOtp
    (by decide) (by decide) (by decide) (by decide) (by decide) (by decide)

/-- The state after `n` submissions of the same code `w` for the same
phone, each read and increment happening at time `t`. -/
def iterateVerify (cfg : OTPConfig) (s : ServiceState) (t : Nat)
    (rawPhone w : List Char) : Nat → ServiceState
  | 0 => s
  | n + 1 =>
    (verifyOTP cfg (iterateVerify cfg s t rawPhone w n) t t rawPhone w).2

/-- C3: starting from a fresh live challenge, every wrong (well-formed)
submission while `attempts < maxAttempts` returns `InvalidOTP` and
increments the stored attempt counter by exactly one (so the first
`maxAttempts - 1` submissions — and, per the code's boundary policy,
also the one that reaches the limit — return `InvalidOTP`), and the next
submission returns `TooManyAttempts` and deletes the challenge, which
therefore no longer exists afterwards. -/
theorem C3_wrong_attempts_exhaust_challenge
    (cfg : OTPConfig) (s : ServiceState) (t : Nat)
    (phone w : List Char) (otp : OTP)
    (hval : ValidateAndNormalizePhone phone = .ok phone)
    (hotp : s.store.otps phone = some otp)
    (h0 : otp.attempts = 0)
    (hlive : ¬ t > otp.expiresAt)
    (hwd : w.all isDigitCh = true)
    (hwl : w.length = cfg.length)
    (hne : w ≠ otp.code) :
    (∀ k, k ≤ cfg.maxAttempts →
      (iterateVerify cfg s t phone w k).store.otps phone =
        some ({ otp with attempts := k })) ∧
    (∀ k, k < cfg.maxAttempts →
      (verifyOTP cfg (iterateVerify cfg s t phone w k) t t phone w).1 =
        .error .invalidOTP) ∧
    (verifyOTP cfg (iterateVerify cfg s t phone w cfg.maxAttempts)
        t t phone w).1 = .error .tooManyAttempts ∧
    (iterateVerify cfg s t phone w (cfg.maxAttempts + 1)).store.otps phone =
      none := by
  have hcode : ValidateOTPCode w cfg.length = .ok w :=
    validateOTPCode_ok hwd hwl
  have inv : ∀ k, k ≤ cfg.maxAttempts →
      (iterateVerify cfg s t phone w k).store.otps phone =
        some ({ otp with attempts := k }) := by
    intro k
    induction k with
    | zero =>
      intro _
      show s.store.otps phone = some ({ otp with attempts := 0 })
      rw [hotp, ← h0]
    | succ k ih =>
      intro hk
      have hklt : k < cfg.maxAttempts := by omega
      have hotpk := ih (by omega)
      show (verifyOTP cfg (iterateVerify cfg s t phone w k)
          t t phone w).2.store.otps phone = _
      rw [verify_wrong_code hval hcode hotpk hlive hklt hne]
      simp [bumpAttempts]
  refine ⟨inv, ?_, ?_, ?_⟩
  · intro k hk
    rw [verify_wrong_code hval hcode (inv k (by omega)) hlive hk hne]
  · rw [verify_exhausted hval hcode (inv cfg.maxAttempts (by omega)) hlive
      (by simp)]
  · show (verifyOTP cfg (iterateVerify cfg s t phone w cfg.maxAttempts)
        t t phone w).2.store.otps phone = none
    rw [verify_exhausted hval hcode (inv cfg.maxAttempts (by omega)) hlive
      (by simp)]
    simp [deleteOTP]

theorem C3_witness :
    (verifyOTP defaultOTPConfig
        (iterateVerify defaultOTPConfig sDemo 5 demoPhone ("654321".toList) 2)
        5 5 demoPhone ("654321".toList)).1 = .error .invalidOTP ∧
    (verifyOTP defaultOTPConfig
        (iterateVerify defaultOTPConfig sDemo 5 demoPhone ("654321".toList) 3)
        5 5 demoPhone ("654321".toList)).1 = .error .tooManyAttempts ∧
    (iterateVerify defaultOTPConfig sDemo 5 demoPhone
        ("654321".toList) 4).store.otps demoPhone = none := by
  obtain ⟨_, hinv, hmax, hdel⟩ :=
    C3_wrong_attempts_exhaust_challenge defaultOTPConfig sDemo 5 demoPhone
      ("654321".toList) demoOtp (by decide) (by decide) (by decide)
      (by decide) (by decide) (by decide) (by decide)
  exact ⟨hinv 2 (by decide), hmax, hdel⟩

/-- C9 as stated is violated: when the challenge expires between the
fetch and the attempt increment, `IncrementAttempts` fails with
`ChallengeNotFound`, but `VerifyOTP` logs and swallows that failure and
surfaces `InvalidOTP`, not `OTPExpired`.  Concretely: the challenge for
`demoPhone` expires at minute 10; the fetch happens at minute 5, the
increment at minute 20, the submitted code mismatches. -/
theorem C9_counterexample :
    (incrementAttempts sDemo.store 20 demoPhone).1 =
      some .challengeNotFound ∧
    (verifyOTP defaultOTPConfig sDemo 5 20 demoPhone "654321".toList).1 =
      .error .invalidOTP ∧
    (verifyOTP defaultOTPConfig sDemo 5 20 demoPhone "654321".toList).1 ≠
      .error .otpExpired := ⟨by decide, by decide, by decide⟩

/-- C9 (amended): when a code mismatch occurs and the attempt-increment
fails with `ChallengeNotFound` (the challenge expired between fetch and
increment), the failure is logged and swallowed and the caller of
`VerifyOTP` receives `InvalidOTP`; the lazy expiry check inside the
increment's re-fetch deletes the lapsed challenge. -/
theorem C9_race_mismatch_surfaces_invalid_otp
    (cfg : OTPConfig) (s : ServiceState) (tGet tInc : Nat)
    (rawPhone phone rawCode code : List Char) (otp : OTP)
    (hval : ValidateAndNormalizePhone rawPhone = .ok phone)
    (hcode : ValidateOTPCode rawCode cfg.length = .ok code)
    (hotp : s.store.otps phone = some otp)
    (hlive : ¬ tGet > otp.expiresAt)
    (hatt : otp.attempts < cfg.maxAttempts)
    (hne : code ≠ otp.code)
    (hrace : tInc > otp.expiresAt) :
    (incrementAttempts s.store tInc phone).1 = some .challengeNotFound ∧
    verifyOTP cfg s tGet tInc rawPhone rawCode =
      (.error .invalidOTP, { s with store := deleteOTP s.store phone }) := by
  constructor
  · simp [incrementAttempts, getOTP, hotp, hrace]
  · unfold verifyOTP
    rw [hval, hcode]
    simp only [getOTP, hotp, hlive, if_false]
    have hattf : ¬ otp.attempts ≥ cfg.maxAttempts := by omega
    simp only [hattf, if_false]
    have hct : ctCompare otp.code code ≠ 1 := by
      intro hc; exact hne (ctCompare_eq_one_iff.mp hc).symm
    simp only [hct, ne_eq, not_false_iff, if_true, ite_true]
    simp only [incrementAttempts, getOTP, hotp, hrace, if_true]

theorem C9_witness :
    (incrementAttempts sDemo.store 20 demoPhone).1 =
      some .challengeNotFound ∧
    verifyOTP defaultOTPConfig sDemo 5 20 demoPhone "654321".toList =
      (.error .invalidOTP,
       { sDemo with store := deleteOTP sDemo.store demoPhone }) :=
  C9_race_mismatch_surfaces_invalid_otp defaultOTPConfig sDemo 5 20
    demoPhone demoPhone ("654321".toList) ("654321".toList) demoOtp
    (by decide) (by decide) (by decide) (by decide) (by decide) (by decide)
    (by decide)

/-- C10: the submitted code is trimmed before validation and comparison:
padding the correct stored code with whitespace on either side yields
exactly the same outcome as submitting it bare, and in particular (for a
live challenge) it succeeds. -/
theorem C10_whitespace_padding_is_invisible
    (cfg : OTPConfig) (s : ServiceState) (tGet tInc : Nat)
    (phone ws1 ws2 : List Char) (otp : OTP)
    (h1 : ∀ c ∈ ws1, goIsSpace c = true)
    (h2 : ∀ c ∈ ws2, goIsSpace c = true)
    (hval : ValidateAndNormalizePhone phone = .ok phone)
    (hotp : s.store.otps phone = some otp)
    (hlive : ¬ tGet > otp.expiresAt)
    (hatt : otp.attempts < cfg.maxAttempts)
    (hdig : otp.code.all isDigitCh = true)
    (hlen : otp.code.length = cfg.length) :
    verifyOTP cfg s tGet tInc phone (ws1 ++ otp.code ++ ws2) =
      verifyOTP cfg s tGet tInc phone otp.code ∧
    ∃ resp s2,
      verifyOTP cfg s tGet tInc phone (ws1 ++ otp.code ++ ws2) =
        (.ok resp, s2) ∧
      resp.token ≠ [] ∧ resp.user.phoneNumber = phone := by
  have hpad : verifyOTP cfg s tGet tInc phone (ws1 ++ otp.code ++ ws2) =
      verifyOTP cfg s tGet tInc phone otp.code := by
    unfold verifyOTP
    rw [validateOTPCode_pad h1 h2 hdig]
  refine ⟨hpad, ?_⟩
  obtain ⟨resp, s2, heq, htok, hph, _, _⟩ :=
    verify_correct_code hval hotp hlive hatt hdig hlen
  exact ⟨resp, s2, by rw [hpad, heq], htok, hph⟩

theorem C10_witness :
    verifyOTP defaultOTPConfig sDemo 5 5 demoPhone
        ([' '] ++ demoOtp.code ++ [' ', ' ']) =
      verifyOTP defaultOTPConfig sDemo 5 5 demoPhone demoOtp.code ∧
    ∃ resp s2,
      verifyOTP defaultOTPConfig sDemo 5 5 demoPhone
          ([' '] ++ demoOtp.code ++ [' ', ' ']) = (.ok resp, s2) ∧
      resp.token ≠ [] ∧ resp.user.phoneNumber = demoPhone :=
  C10_whitespace_padding_is_invisible defaultOTPConfig sDemo 5 5 demoPhone
    [' '] [' ', ' '] demoOtp (by decide) (by decide) (by decide) (by decide)
    (by decide) (by decide) (by decide) (by decide)

/-- C8: the comparison `VerifyOTP` performs between the stored and the
submitted code is `subtle.ConstantTimeCompare` (`ctCompare`), whose
work — the number of byte positions processed, `ctCompareCost` — is a
function of the operand lengths alone: for any two pairs of equal-length
byte sequences of the same length, the cost is identical, so it does not
depend on where (or whether) the sequences first differ. -/
theorem C8_comparison_cost_independent_of_content
    (a b a2 b2 : List Char)
    (hab : a.length = b.length) (hab2 : a2.length = b2.length)
    (h12 : a.length = a2.length) :
    ctCompareCost a b = ctCompareCost a2 b2 := by
  have key : ∀ x y : List Char, x.length = y.length →
      ctCompareCost x y = x.length := by
    intro x y h
    unfold ctCompareCost ctCompareTrace
    simp only [h, if_true]
    rw [ctLoop_steps]
    simp [h]
  rw [key a b hab, key a2 b2 hab2, h12]

theorem C8_witness :
    ctCompareCost ("123456".toList) ("123457".toList) =
      ctCompareCost ("123456".toList) ("023456".toList) :=
  C8_comparison_cost_independent_of_content ("123456".toList)
    ("123457".toList) ("123456".toList) ("023456".toList)
    (by decide) (by decide) (by decide)

end GoOtpAuth
